import Mathlib

set_option maxRecDepth 4000

/-!
Shallow embedding of the pstack ELF reader (src/elf.cc) and the canal
vtable scanner (src/unnamed/part_000).

Machine integers are modelled as Nat, reduced modulo 2^64 (Elf_Addr /
Elf_Off) or 2^32 (Elf_Word / uint32_t) exactly at the operations where the
C arithmetic can overflow.  Fallible operations return Option or Except;
an out-of-bounds memory access of the C program has no denotation and is
modelled as none.
-/

/-! ELF constants, from the standard ELF headers that elf.cc includes. -/

def PT_LOAD : Nat := 1

def SHN_UNDEF : Nat := 0

def SHF_ALLOC : Nat := 2

def STT_NOTYPE : Nat := 0

def STN_UNDEF : Nat := 0

def EI_VERSION : Nat := 6

def EV_CURRENT : Nat := 1

/-- 2^64, the modulus of Elf_Addr / Elf_Off arithmetic. -/
def ADDR_MOD : Nat := 2 ^ 64

/-! Record types, with exactly the fields the embedded code reads. -/

structure Elf_Phdr where
  p_type : Nat
  p_vaddr : Nat
  p_memsz : Nat
  p_filesz : Nat
deriving Inhabited, DecidableEq

structure Elf_Shdr where
  sh_name : Nat
  sh_offset : Nat
  sh_flags : Nat
deriving Inhabited, DecidableEq

structure Elf_Sym where
  st_value : Nat
  st_size : Nat
  st_info : Nat
  st_shndx : Nat
deriving Inhabited, DecidableEq

structure Elf_Ehdr where
  e_ident : List Nat
deriving Inhabited

/-! ElfObject::init, header validation (elf.cc:57-94). -/

/-- IS_ELF(hdr): the four magic bytes 0x7f 'E' 'L' 'F' at e_ident[0..3]. -/
def isElfMagic (h : Elf_Ehdr) : Bool :=
  h.e_ident.getD 0 0 == 0x7f && h.e_ident.getD 1 0 == 0x45 &&
  h.e_ident.getD 2 0 == 0x4c && h.e_ident.getD 3 0 == 0x46

inductive ElfError where
  | NotElf
  | TruncatedSection
  | BadDwarf
deriving DecidableEq

/-- The header-validation step of ElfObject::init (elf.cc:66-68).  The
source guards the throw with `if (false && (!IS_ELF(elfHeader) ||
elfHeader.e_ident[EI_VERSION] != EV_CURRENT))`, the `false &&` conjunct
transcribed verbatim. -/
def validateElfHeader (h : Elf_Ehdr) : Except ElfError Unit :=
  if false && (!isElfMagic h || !(h.e_ident.getD EI_VERSION 0 == EV_CURRENT)) then
    Except.error ElfError.NotElf
  else
    Except.ok ()

/-! Segment queries (elf.cc:17-46). -/

/-- ElfObject::findHeaderForAddress (elf.cc:17-24): first program header
with p_vaddr <= a && p_vaddr + p_memsz > a && p_type == PT_LOAD. -/
def findHeaderForAddress (phdrs : List Elf_Phdr) (a : Nat) : Option Elf_Phdr :=
  phdrs.find? fun hdr =>
    decide (hdr.p_vaddr ≤ a) && decide (a < (hdr.p_vaddr + hdr.p_memsz) % ADDR_MOD) &&
    decide (hdr.p_type = PT_LOAD)

/-- ElfObject::getBase (elf.cc:38-46): fold starting from
numeric_limits of Elf_Off max, taking p_vaddr of each PT_LOAD with
p_vaddr <= base. -/
def getBase (phdrs : List Elf_Phdr) : Nat :=
  phdrs.foldl
    (fun base i =>
      if i.p_type == PT_LOAD && decide (i.p_vaddr ≤ base) then i.p_vaddr else base)
    (ADDR_MOD - 1)

/-! Section-name map construction in ElfObject::init (elf.cc:82-93). -/

/-- The name-to-section materialization (elf.cc:82-87).  The source reads
`sectionHeaders[elfHeader.e_shstrndx]` guarded only by
`e_shstrndx != SHN_UNDEF`; indexing the vector outside its bounds has no
denotation and is modelled as none.  readString abstracts the io reader. -/
def namedSectionInit (readString : Nat → String) (shdrs : List Elf_Shdr)
    (shstrndx : Nat) : Option (List (String × Elf_Shdr)) :=
  if shstrndx ≠ SHN_UNDEF then
    match shdrs[shstrndx]? with
    | none => none
    | some sshdr => some (shdrs.map fun h => (readString (sshdr.sh_offset + h.sh_name), h))
  else
    some []

/-! Debug companion lookup (elf.cc:277-306). -/

structure DebugCompanionState where
  debugLoaded : Bool
  debugObj : Option Nat
  hasGnuDebuglink : Bool
deriving Inhabited, DecidableEq

/-- ElfObject::getDebug (elf.cc:277-306).  The first statement of the body
is `return 0;`; the .gnu_debuglink read, the open under /usr/lib/debug and
the caching below it are unreachable, so the call returns null and leaves
the object state unchanged. -/
def getDebug (s : DebugCompanionState) : Option Nat × DebugCompanionState :=
  (none, s)

/-! findSymbolByAddress (elf.cc:114-160). -/

/-- ELF_ST_TYPE(st_info) = st_info & 0xf. -/
def elfStType (s : Elf_Sym) : Nat := s.st_info &&& 0xf

structure ElfObjModel where
  sectionHeaders : List Elf_Shdr
  symtab : Option (List (Elf_Sym × String))
  dynsym : Option (List (Elf_Sym × String))
deriving Inhabited

/-- The candidate stream scanned by ElfObject::findSymbolByAddress:
".symtab" entries then ".dynsym" entries (elf.cc:118-127).  An absent
section, or one with sh_type SHT_NOBITS, contributes nothing (none field).
SymbolSection iteration (declared in elfinfo.h, which is not under src) is
taken from the spec's Symbol view: (entry, name) pairs in table order. -/
def symbolStream (o : ElfObjModel) : List (Elf_Sym × String) :=
  o.symtab.getD [] ++ o.dynsym.getD []

/-- One candidate of the findSymbolByAddress loop (elf.cc:128-157).  The
state is (lowest, best): `lowest` and the saved zero-size fallback.  An
exact containment match returns from the function at once, modelled as
Except.error carrying the returned entry.  The containment test
`candidate.st_size + candidate.st_value > addr` is Elf_Addr arithmetic,
hence the mod. -/
def fsbaStep (shdrs : List Elf_Shdr) (addr typ : Nat)
    (st : Nat × Option (Elf_Sym × String)) (c : Elf_Sym × String) :
    Except (Elf_Sym × String) (Nat × Option (Elf_Sym × String)) :=
  if shdrs.length ≤ c.1.st_shndx then Except.ok st
  else if (shdrs.getD c.1.st_shndx default).sh_flags &&& SHF_ALLOC = 0 then Except.ok st
  else if typ ≠ STT_NOTYPE ∧ elfStType c.1 ≠ typ then Except.ok st
  else if addr < c.1.st_value then Except.ok st
  else if c.1.st_size ≠ 0 then
    if addr < (c.1.st_size + c.1.st_value) % ADDR_MOD then Except.error c else Except.ok st
  else if st.1 < c.1.st_value then Except.ok (c.1.st_value, some c)
  else Except.ok st

def fsbaLoop (shdrs : List Elf_Shdr) (addr typ : Nat) :
    List (Elf_Sym × String) → Nat × Option (Elf_Sym × String) →
    Except (Elf_Sym × String) (Nat × Option (Elf_Sym × String))
  | [], st => Except.ok st
  | c :: cs, st =>
    match fsbaStep shdrs addr typ st c with
    | Except.error e => Except.error e
    | Except.ok st1 => fsbaLoop shdrs addr typ cs st1

/-- ElfObject::findSymbolByAddress (elf.cc:114-160): the loop over both
symbol sections with early return on exact match, else the zero-size
fallback when `lowest != 0`. -/
def findSymbolByAddress (o : ElfObjModel) (addr typ : Nat) : Option (Elf_Sym × String) :=
  match fsbaLoop o.sectionHeaders addr typ (symbolStream o) (0, none) with
  | Except.error c => some c
  | Except.ok st => if st.1 ≠ 0 then st.2 else none

/-! SysV hash lookup (elf.cc:195-225, 311-322). -/

/-- One character step of elf_hash (elf.cc:311-322), uint32_t arithmetic:
h = (h << 4) + c; fold the top nibble; h &= ~g. -/
def elf_hash_step (h c : Nat) : Nat :=
  let h1 := (h * 16 + c) % 2 ^ 32
  let g := h1 &&& 0xf0000000
  let h2 := if g ≠ 0 then h1 ^^^ (g >>> 24) else h1
  h2 &&& (0xffffffff ^^^ g)

def elf_hash (name : String) : Nat :=
  name.data.foldl (fun h c => elf_hash_step h c.toNat) 0

/-- The words of the SHT_HASH section as read by ElfSymHash::ElfSymHash
(elf.cc:195-208): data[0] = nbucket, data[1] = nchain, then the buckets,
then the chains.  A read outside the loaded words is modelled by getD's
default. -/
structure ElfHashData where
  data : List Nat
deriving Inhabited

def nbucket (h : ElfHashData) : Nat := h.data.getD 0 0

def nchain (h : ElfHashData) : Nat := h.data.getD 1 0

def buckets (h : ElfHashData) (i : Nat) : Nat := h.data.getD (2 + i) 0

def chains (h : ElfHashData) (i : Nat) : Nat := h.data.getD (2 + nbucket h + i) 0

/-- The chain walk of ElfSymHash::findSymbol (elf.cc:214-223).  The C loop
`for (i = buckets[bucket]; i != STN_UNDEF; i = chains[i])` is unbounded,
so the embedding takes explicit fuel; exhausted fuel (a chain that never
reaches STN_UNDEF) is modelled as none.  Reading symbol i past the symbol
table is modelled by getD's default entry. -/
def hashFindAux (h : ElfHashData) (syms : List (Elf_Sym × String)) (name : String) :
    Nat → Nat → Option (Elf_Sym × String)
  | _, 0 => none
  | i, fuel + 1 =>
    if i = STN_UNDEF then none
    else
      let cand := syms.getD i default
      if cand.2 = name then some cand else hashFindAux h syms name (chains h i) fuel

/-- ElfSymHash::findSymbol (elf.cc:210-225): probe bucket
elf_hash(name) % nbucket and walk the chain. -/
def hashFindSymbol (h : ElfHashData) (syms : List (Elf_Sym × String))
    (name : String) (fuel : Nat) : Option (Elf_Sym × String) :=
  hashFindAux h syms name (buckets h (elf_hash name % nbucket h)) fuel

/-- linearSymSearch (elf.cc:182-193): first entry of the table whose name
equals the query. -/
def linearSymSearch (syms : List (Elf_Sym × String)) (name : String) : Option Elf_Sym :=
  (syms.find? fun info => info.2 == name).map Prod.fst

/-- The finite walk of bucket/chain links: start STN_UNDEF ends the walk,
otherwise the walk visits i and continues at chains i. -/
inductive HashChain (h : ElfHashData) : Nat → List Nat → Prop
  | nil : HashChain h 0 []
  | cons {i : Nat} {L : List Nat} :
      i ≠ 0 → HashChain h (chains h i) L → HashChain h i (i :: L)

/-! The canal vtable scanner (src/unnamed/part_000). -/

structure ListedSymbol where
  st_value : Nat
  st_size : Nat
  objbase : Nat
  count : Nat
  name : String
deriving Inhabited, DecidableEq

/-- ListedSymbol::memaddr (part_000:62): sym.st_value + objbase, Elf_Off. -/
def memaddr (s : ListedSymbol) : Nat := (s.st_value + s.objbase) % ADDR_MOD

/-- memaddr() + sym.st_size, the quantity used both by the comparator
operator<(sym, addr) (part_000:65-67) and the hit test (part_000:224),
Elf_Off arithmetic. -/
def symEnd (s : ListedSymbol) : Nat := (memaddr s + s.st_size) % ADDR_MOD

/-- std::lower_bound over the listed vector with comparator
operator<(sym, addr) = memaddr() + st_size < addr (part_000:65-67, 223):
the standard halving search over [first, first + len).  The fuel argument
(initially the length) only drives structural recursion; the search
narrows len to 0 before the fuel can run out. -/
def lbAux (l : List ListedSymbol) (p : Nat) : Nat → Nat → Nat → Nat
  | 0, first, _ => first
  | fuel + 1, first, len =>
    if len = 0 then first
    else if symEnd (l.getD (first + len / 2) default) < p then
      lbAux l p fuel (first + len / 2 + 1) (len - len / 2 - 1)
    else
      lbAux l p fuel first (len / 2)

def lowerBound (l : List ListedSymbol) (p : Nat) : Nat := lbAux l p l.length 0 l.length

/-- The hit test for one scanned word (part_000:223-224):
found != listed.end() && found->memaddr() <= p &&
found->memaddr() + found->sym.st_size > p; the result is the index of the
hit entry. -/
def scanHit (l : List ListedSymbol) (w : Nat) : Option Nat :=
  if lowerBound l w < l.length ∧ memaddr (l.getD (lowerBound l w) default) ≤ w ∧
      w < symEnd (l.getD (lowerBound l w) default) then
    some (lowerBound l w)
  else
    none

def bumpCount (s : ListedSymbol) : ListedSymbol :=
  ⟨s.st_value, s.st_size, s.objbase, s.count + 1, s.name⟩

/-- The effect of one scanned word on the counters: found->count++
(part_000:227), no change when the hit test fails. -/
def scanWord (l : List ListedSymbol) (w : Nat) : List ListedSymbol :=
  match scanHit l w with
  | some i => l.set i (bumpCount (l.getD i default))
  | none => l

/-- Modelled from the spec (claim C6 wording): the candidate is the
greatest entry of the address-sorted list with relocated address ≤ w, and
it is a hit exactly when its relocated address + st_size > w. -/
def specScanHit (l : List ListedSymbol) (w : Nat) : Option Nat :=
  match ((List.range l.length).filter fun i => decide (memaddr (l.getD i default) ≤ w)).getLast? with
  | none => none
  | some i =>
    if w < memaddr (l.getD i default) + (l.getD i default).st_size then some i else none

/-- Ascending relocated-address order, the sort of part_000:178-180. -/
def sortedByAddr : List ListedSymbol → Bool
  | [] => true
  | [_] => true
  | a :: b :: t => decide (memaddr a ≤ memaddr b) && sortedByAddr (b :: t)

/-! The reference search of the -f and -e options (part_000:217-222). -/

/-- The reference-search condition (part_000:220):
p >= minval && p < maxval && p % 4 == 0. -/
def refMatch (minv maxv w : Nat) : Bool :=
  decide (minv ≤ w) && decide (w < maxv) && decide (w % 4 = 0)

/-- The reference search over the words of one scanned page
(part_000:213-222): loc is the page base address passed to readObj; a
matching word prints loc itself (part_000:221). -/
def refScanPage (minv maxv loc : Nat) : List Nat → List Nat
  | [] => []
  | w :: ws =>
    if refMatch minv maxv w then loc :: refScanPage minv maxv loc ws
    else refScanPage minv maxv loc ws

/-- Modelled from the spec (claim C7 wording): record the containing
address of each matching word, i.e. loc + i * sizeof(void*) for the i-th
word of the page, with sizeof(void*) = 8. -/
def specRefScanPage (minv maxv loc : Nat) : List Nat → Nat → List Nat
  | [], _ => []
  | w :: ws, i =>
    if refMatch minv maxv w then (loc + i * 8) :: specRefScanPage minv maxv loc ws (i + 1)
    else specRefScanPage minv maxv loc ws (i + 1)

/-! Exit codes (part_000:110-116, 251-261). -/

/-- main (part_000:251-261): the value of mainExcept is returned as is;
a caught exception prints it and returns -1. -/
def mainCatch (r : Except String Int) : Int :=
  match r with
  | Except.ok v => v
  | Except.error _ => -1

/-- The usage path of mainExcept (part_000:114-116): case 'h' prints the
usage line and returns 0. -/
def usageExitCode : Int := 0

/-! The glob matcher (part_000:17-44). -/

/-- The inner loop of the '*' case of globmatchR (part_000:23-30): advance
the name first, then try the rest of the pattern against each suffix.  A
name list holds the characters before the C string's NUL terminator, so
advancing past the terminator (++name when *name is already 0) leads to an
out-of-bounds read in the callee and has no denotation: none. -/
def starLoop (f : List Char → Option Bool) : List Char → Option Bool
  | [] => none
  | _ :: nr =>
    match f nr with
    | some true => some true
    | none => none
    | some false => if nr.isEmpty then some false else starLoop f nr

/-- globmatchR (part_000:17-38), curried on the pattern: literal characters
must match pairwise; a '*' delegates to starLoop; an exhausted pattern
matches exactly the exhausted name. -/
def gmR : List Char → List Char → Option Bool
  | [] => fun name =>
    match name with
    | [] => some true
    | _ :: _ => some false
  | p :: pr => fun name =>
    if p = '*' then starLoop (gmR pr) name
    else
      match name with
      | [] => some false
      | n :: nr => if n = p then gmR pr nr else some false

/-- globmatch (part_000:40-44). -/
def globmatch (pat name : String) : Option Bool := gmR pat.data name.data

/-! The exact-containment condition of findSymbolByAddress, the conjunction
under which elf.cc:139-146 returns the candidate immediately. -/

def ExactCond (shdrs : List Elf_Shdr) (addr typ : Nat) (c : Elf_Sym × String) : Prop :=
  c.1.st_shndx < shdrs.length ∧
  (shdrs.getD c.1.st_shndx default).sh_flags &&& SHF_ALLOC ≠ 0 ∧
  (typ = STT_NOTYPE ∨ elfStType c.1 = typ) ∧
  c.1.st_value ≤ addr ∧ c.1.st_size ≠ 0 ∧
  addr < (c.1.st_size + c.1.st_value) % ADDR_MOD

instance (shdrs : List Elf_Shdr) (addr typ : Nat) (c : Elf_Sym × String) :
    Decidable (ExactCond shdrs addr typ c) := by
  unfold ExactCond; infer_instance

/-! Concrete fixtures used by the per-claim theorems. -/

/-- A 16-byte e_ident of all zeroes: not an ELF image. -/
def hdrZero : Elf_Ehdr := ⟨List.replicate 16 0⟩

/-- A single allocated section header (sh_flags = SHF_ALLOC). -/
def shdrAlloc : Elf_Shdr := ⟨0, 0, 2⟩

/-- Overlapping symbols: symA covers [10, 110), symB covers [10, 15). -/
def symA : Elf_Sym := ⟨10, 100, 2, 0⟩

def symB : Elf_Sym := ⟨10, 5, 2, 0⟩

def objC2 : ElfObjModel := ⟨[shdrAlloc], some [(symA, "A"), (symB, "B")], none⟩

/-- A symbol covering [100, 104). -/
def symW : Elf_Sym := ⟨100, 4, 2, 0⟩

def objC2W : ElfObjModel := ⟨[shdrAlloc], some [(symW, "w")], none⟩

/-- A hash section whose sole bucket is empty (data[2] = 0 = STN_UNDEF)
while .dynsym does hold the queried name: nbucket = 1, nchain = 2. -/
def hashCeg : ElfHashData := ⟨[1, 2, 0, 0, 0]⟩

def symF : Elf_Sym := ⟨7, 1, 2, 1⟩

def symsCeg : List (Elf_Sym × String) := [(⟨0, 0, 0, 0⟩, ""), (symF, "a")]

/-- A well-formed one-bucket hash: buckets[0] = 1, chains[1] = 0. -/
def hashWit : ElfHashData := ⟨[1, 2, 1, 0, 0]⟩

def symE : Elf_Sym := ⟨200, 8, 2, 1⟩

def symsWit : List (Elf_Sym × String) := [(⟨0, 0, 0, 0⟩, ""), (symE, "abc")]

/-- One PT_LOAD segment [0x1000, 0x1100). -/
def phdrsC4W : List Elf_Phdr := [⟨1, 0x1000, 0x100, 0x100⟩]

/-- Adjacent vtable ranges: entry 0 covers [10, 20), entry 1 covers
[20, 30); sorted by relocated address. -/
def listC6 : List ListedSymbol := [⟨10, 10, 0, 0, "A"⟩, ⟨20, 10, 0, 0, "B"⟩]

/-- A single section header, for the out-of-bounds e_shstrndx input. -/
def shdrsC8 : List Elf_Shdr := [⟨0, 0, 0⟩]

/-! Helper lemmas. -/

theorem find?_isSome_of_mem {α : Type} (p : α → Bool) :
    ∀ (l : List α) (x : α), x ∈ l → p x = true → (l.find? p).isSome = true := by
  intro l
  induction l with
  | nil => intro x hx; cases hx
  | cons a t ih =>
    intro x hx hp
    by_cases ha : p a
    · simp [List.find?_cons_of_pos _ ha]
    · rcases hx with _ | ⟨_, hm⟩
      · exact absurd hp ha
      · rw [List.find?_cons_of_neg _ (by simpa using ha)]
        exact ih x hm hp

/-! C1: the disabled header validation (elf.cc:66-68). -/

/-- C1 (code_bug).  The claim says an input whose bytes at offset 0 are not
a valid ELF identification is rejected with NotElf.  In the source the
whole check is guarded by `if (false && ...)`, so validation never fires:
for every header, including the all-zero identification hdrZero that fails
the magic test, validateElfHeader succeeds and parsing continues. -/
theorem claimC1_theorem :
    validateElfHeader hdrZero = Except.ok () ∧ isElfMagic hdrZero = false ∧
    ∀ h : Elf_Ehdr, validateElfHeader h = Except.ok () :=
  ⟨rfl, by decide, fun _ => rfl⟩

/-! C4: findHeaderForAddress(getBase()) (elf.cc:17-24, 38-46). -/

/-- C4 (corrected), counterexample.  On an image with no PT_LOAD segment
(e.g. a relocatable object) getBase returns the Elf_Off maximum and no
program header covers it, so find_header_for_address(base()) is none. -/
theorem claimC4_counterexample :
    getBase [] = ADDR_MOD - 1 ∧ findHeaderForAddress [] (getBase []) = none :=
  ⟨rfl, rfl⟩

/-- C4 (corrected), amended claim: if some PT_LOAD segment attains the base
value with nonzero p_memsz and without Elf_Addr wraparound in
p_vaddr + p_memsz, then find_header_for_address(base()) is a segment. -/
theorem claimC4_amended (phdrs : List Elf_Phdr) (h : Elf_Phdr)
    (hmem : h ∈ phdrs) (hload : h.p_type = PT_LOAD)
    (hbase : h.p_vaddr = getBase phdrs) (hsz : 0 < h.p_memsz)
    (hwrap : h.p_vaddr + h.p_memsz < ADDR_MOD) :
    (findHeaderForAddress phdrs (getBase phdrs)).isSome = true := by
  apply find?_isSome_of_mem _ phdrs h hmem
  have hmod : (h.p_vaddr + h.p_memsz) % ADDR_MOD = h.p_vaddr + h.p_memsz :=
    Nat.mod_eq_of_lt hwrap
  rw [← hbase, hmod]
  simp only [Bool.and_eq_true, decide_eq_true_eq]
  exact ⟨⟨Nat.le_refl _, by omega⟩, hload⟩

/-- C4 witness: a concrete image with one PT_LOAD segment. -/
theorem claimC4_witness : (findHeaderForAddress phdrsC4W (getBase phdrsC4W)).isSome = true :=
  claimC4_amended phdrsC4W ⟨1, 0x1000, 0x100, 0x100⟩ (by decide) rfl (by decide) (by decide)
    (by decide)

/-! C5: the debug companion (elf.cc:277-306). -/

/-- C5 (code_bug).  The claim says getDebug reads .gnu_debuglink, opens the
companion under /usr/lib/debug and caches it.  The body's first statement
is `return 0;`, so even for an object that has a .gnu_debuglink section the
call returns null, attempts nothing, and leaves the state unchanged. -/
theorem claimC5_theorem :
    getDebug ⟨false, none, true⟩ = (none, ⟨false, none, true⟩) ∧
    ∀ s : DebugCompanionState, getDebug s = (none, s) :=
  ⟨rfl, fun _ => rfl⟩

/-! C8: the e_shstrndx bounds check (elf.cc:82-93). -/

/-- C8 (code_bug).  The claim says every access made while building the
name-to-section map stays in bounds even when e_shstrndx is neither
SHN_UNDEF nor below e_shnum.  The source guards only e_shstrndx !=
SHN_UNDEF before indexing sectionHeaders[e_shstrndx]: with one section
header and e_shstrndx = 3 the access is out of bounds (modelled none). -/
theorem claimC8_theorem :
    namedSectionInit (fun _ => "") shdrsC8 3 = none ∧
    (3 : Nat) ≠ SHN_UNDEF ∧ shdrsC8.length = 1 :=
  ⟨rfl, by decide, rfl⟩

/-! C9: exit codes (part_000:110-116, 251-261). -/

/-- C9 (corrected), counterexample.  The claim says a parse failure
surfaced to main exits with 1 and a usage error with 2.  The source's
catch block returns -1, and the only usage path (option 'h') returns 0;
no path returns 1 or 2. -/
theorem claimC9_counterexample :
    mainCatch (Except.error "not an ELF image") = -1 ∧
    decide ((-1 : Int) = 1) = false ∧
    usageExitCode = 0 ∧ decide (usageExitCode = 2) = false := by
  refine ⟨rfl, by decide, rfl, by decide⟩

/-- C9 (corrected), amended claim: exit code 0 on success, -1 when parsing
the primary executable or core fails (the exception reaches main), and the
usage path returns 0; there is no distinct usage-error exit code. -/
theorem claimC9_amended :
    (∀ v, mainCatch (Except.ok v) = v) ∧
    (∀ e, mainCatch (Except.error e) = -1) ∧
    usageExitCode = 0 :=
  ⟨fun _ => rfl, fun _ => rfl, rfl⟩

/-! C7: the reference search records the page base (part_000:217-222). -/

/-- C7 (corrected), counterexample.  Three matching word-aligned pointers
within one scanned page: the source prints the page base loc three times
(part_000:221 prints loc, the chunk pointer), not the three distinct
containing addresses loc, loc + 8, loc + 16 the claim requires. -/
theorem claimC7_counterexample :
    refScanPage 0x1000 0x2000 0x4000 [0x1000, 0x1008, 0x1010] =
      [0x4000, 0x4000, 0x4000] ∧
    specRefScanPage 0x1000 0x2000 0x4000 [0x1000, 0x1008, 0x1010] 0 =
      [0x4000, 0x4008, 0x4010] ∧
    decide (refScanPage 0x1000 0x2000 0x4000 [0x1000, 0x1008, 0x1010] =
      specRefScanPage 0x1000 0x2000 0x4000 [0x1000, 0x1008, 0x1010] 0) = false ∧
    decide ((refScanPage 0x1000 0x2000 0x4000 [0x1000, 0x1008, 0x1010]).Nodup) = false := by
  refine ⟨rfl, rfl, by decide, by decide⟩

/-- C7 (corrected), amended claim: for every word of a scanned page whose
value lies in [min, max) and is 4-byte aligned, the scanner prints the
base address loc of the containing readObj chunk, once per matching word:
the output is loc repeated match-count times. -/
theorem claimC7_amended (minv maxv loc : Nat) (ws : List Nat) :
    refScanPage minv maxv loc ws =
      List.replicate (ws.countP (refMatch minv maxv)) loc := by
  induction ws with
  | nil => rfl
  | cons w t ih =>
    by_cases h : refMatch minv maxv w
    · simp [refScanPage, h, List.countP_cons, ih, List.replicate_succ]
    · simp [refScanPage, h, List.countP_cons, ih]

/-! C2: findSymbolByAddress exact-containment (elf.cc:114-160). -/

theorem fsbaStep_error_of_exact (shdrs : List Elf_Shdr) (addr typ : Nat)
    (st : Nat × Option (Elf_Sym × String)) (c : Elf_Sym × String)
    (hex : ExactCond shdrs addr typ c) :
    fsbaStep shdrs addr typ st c = Except.error c := by
  obtain ⟨h1, h2, h3, h4, h5, h6⟩ := hex
  have hg3 : ¬ (typ ≠ STT_NOTYPE ∧ elfStType c.1 ≠ typ) := by
    rcases h3 with h | h
    · exact fun hc => hc.1 h
    · exact fun hc => hc.2 h
  unfold fsbaStep
  rw [if_neg (show ¬ shdrs.length ≤ c.1.st_shndx by omega), if_neg h2, if_neg hg3,
    if_neg (show ¬ addr < c.1.st_value by omega), if_pos h5, if_pos h6]

theorem fsbaStep_ok_not_exact (shdrs : List Elf_Shdr) (addr typ : Nat)
    (st st' : Nat × Option (Elf_Sym × String)) (c : Elf_Sym × String)
    (h : fsbaStep shdrs addr typ st c = Except.ok st') :
    ¬ ExactCond shdrs addr typ c := by
  intro hex
  rw [fsbaStep_error_of_exact shdrs addr typ st c hex] at h
  exact absurd h (by simp)

theorem fsbaStep_error_elim (shdrs : List Elf_Shdr) (addr typ : Nat)
    (st : Nat × Option (Elf_Sym × String)) (c e : Elf_Sym × String)
    (h : fsbaStep shdrs addr typ st c = Except.error e) :
    e = c ∧ ExactCond shdrs addr typ c := by
  unfold fsbaStep at h
  split_ifs at h with g1 g2 g3 g4 g5 g6 g7
  have h' : c = e := by injection h
  subst h'
  refine ⟨rfl, by omega, g2, ?_, by omega, g5, g6⟩
  by_cases ht : typ = STT_NOTYPE
  · exact Or.inl ht
  · refine Or.inr ?_
    by_contra hne
    exact g3 ⟨ht, hne⟩

theorem fsbaLoop_ok_not_exact (shdrs : List Elf_Shdr) (addr typ : Nat) :
    ∀ (l : List (Elf_Sym × String)) (st st' : Nat × Option (Elf_Sym × String)),
      fsbaLoop shdrs addr typ l st = Except.ok st' →
      ∀ c ∈ l, ¬ ExactCond shdrs addr typ c := by
  intro l
  induction l with
  | nil => intro st st' h c hc; cases hc
  | cons a t ih =>
    intro st st' h c hc
    simp only [fsbaLoop] at h
    cases hstep : fsbaStep shdrs addr typ st a with
    | error e => rw [hstep] at h; cases h
    | ok st1 =>
      rw [hstep] at h
      cases hc with
      | head => exact fsbaStep_ok_not_exact _ _ _ _ _ _ hstep
      | tail _ hm => exact ih st1 st' h c hm

theorem fsbaLoop_error_elim (shdrs : List Elf_Shdr) (addr typ : Nat) :
    ∀ (l : List (Elf_Sym × String)) (st : Nat × Option (Elf_Sym × String))
      (e : Elf_Sym × String),
      fsbaLoop shdrs addr typ l st = Except.error e →
      e ∈ l ∧ ExactCond shdrs addr typ e := by
  intro l
  induction l with
  | nil => intro st e h; cases h
  | cons a t ih =>
    intro st e h
    simp only [fsbaLoop] at h
    cases hstep : fsbaStep shdrs addr typ st a with
    | error e1 =>
      rw [hstep] at h
      injection h with h'
      subst h'
      obtain ⟨he, hex⟩ := fsbaStep_error_elim _ _ _ _ _ _ hstep
      subst he
      exact ⟨List.mem_cons_self _ _, hex⟩
    | ok st1 =>
      rw [hstep] at h
      obtain ⟨hm, hex⟩ := ih st1 e h
      exact ⟨List.mem_cons_of_mem _ hm, hex⟩

/-- C2 (corrected), counterexample.  With two overlapping allocated
symbols, symA covering [10, 110) listed before symB covering [10, 15),
the lookup at symB.st_value + 0 with symB's kind returns symA, not symB:
the first containment match in scan order wins, so the claim's "returns s"
fails even though symB satisfies every premise. -/
theorem claimC2_counterexample :
    findSymbolByAddress objC2 (symB.st_value + 0) (elfStType symB) = some (symA, "A") ∧
    decide (symA = symB) = false ∧
    (symB, "B") ∈ symbolStream objC2 ∧
    symB.st_shndx < objC2.sectionHeaders.length ∧
    0 < (objC2.sectionHeaders.getD symB.st_shndx default).sh_flags &&& SHF_ALLOC ∧
    0 < symB.st_size := by
  refine ⟨by decide, by decide, by decide, by decide, by decide, by decide⟩

/-- C2 (corrected), amended claim.  For every symbol s with st_size > 0 in
an allocated section (and no Elf_Addr wraparound in st_value + st_size),
findSymbolByAddress(s.st_value + k, kind of s) with 0 ≤ k < st_size
succeeds and returns an exact containment match: some allocated,
kind-compatible entry whose [st_value, st_value + st_size) range contains
the address — the first such entry in scan order, which is s itself only
when ranges do not overlap. -/
theorem claimC2_amended (o : ElfObjModel) (s : Elf_Sym) (n : String) (k : Nat)
    (hmem : (s, n) ∈ symbolStream o)
    (hshndx : s.st_shndx < o.sectionHeaders.length)
    (halloc : (o.sectionHeaders.getD s.st_shndx default).sh_flags &&& SHF_ALLOC ≠ 0)
    (hsize : 0 < s.st_size) (hk : k < s.st_size)
    (hwrap : s.st_value + s.st_size < ADDR_MOD) :
    ∃ c, findSymbolByAddress o (s.st_value + k) (elfStType s) = some c ∧
      c ∈ symbolStream o ∧
      ExactCond o.sectionHeaders (s.st_value + k) (elfStType s) c := by
  have hex : ExactCond o.sectionHeaders (s.st_value + k) (elfStType s) (s, n) := by
    refine ⟨hshndx, halloc, Or.inr rfl, ?_, ?_, ?_⟩
    · show s.st_value ≤ s.st_value + k
      omega
    · show s.st_size ≠ 0
      omega
    · show s.st_value + k < (s.st_size + s.st_value) % ADDR_MOD
      rw [Nat.mod_eq_of_lt (show s.st_size + s.st_value < ADDR_MOD by omega)]
      omega
  cases hloop : fsbaLoop o.sectionHeaders (s.st_value + k) (elfStType s)
      (symbolStream o) (0, none) with
  | error c =>
    obtain ⟨hm, hx⟩ := fsbaLoop_error_elim _ _ _ _ _ _ hloop
    refine ⟨c, ?_, hm, hx⟩
    unfold findSymbolByAddress
    rw [hloop]
  | ok st =>
    exact absurd hex (fsbaLoop_ok_not_exact _ _ _ _ _ _ hloop (s, n) hmem)

/-- C2 witness: a single symbol covering [100, 104), looked up at 101. -/
theorem claimC2_witness :
    ∃ c, findSymbolByAddress objC2W (symW.st_value + 1) (elfStType symW) = some c ∧
      c ∈ symbolStream objC2W ∧
      ExactCond objC2W.sectionHeaders (symW.st_value + 1) (elfStType symW) c :=
  claimC2_amended objC2W symW "w" 1 (by decide) (by decide) (by decide) (by decide)
    (by decide) (by decide)

/-! C3: hash lookup versus linear lookup (elf.cc:182-225, 311-322). -/

theorem hashFindAux_chain (h : ElfHashData) (syms : List (Elf_Sym × String)) (name : String)
    (j : Nat) (hjname : (syms.getD j default).2 = name)
    (huniq : ∀ k, k < syms.length → (syms.getD k default).2 = name → k = j) :
    ∀ {start : Nat} {L : List Nat}, HashChain h start L →
      (∀ i ∈ L, i < syms.length) → j ∈ L → ∀ fuel, L.length ≤ fuel →
      hashFindAux h syms name start fuel = some (syms.getD j default) := by
  intro start L hch
  induction hch with
  | nil => intro _ hj; cases hj
  | @cons i L1 hne _ ih =>
    intro hrange hj fuel hfuel
    cases fuel with
    | zero => simp at hfuel
    | succ f =>
      simp only [hashFindAux]
      rw [if_neg (show ¬ i = STN_UNDEF by unfold STN_UNDEF; exact hne)]
      show (if (syms.getD i default).2 = name then some (syms.getD i default)
        else hashFindAux h syms name (chains h i) f) = some (syms.getD j default)
      by_cases hc : (syms.getD i default).2 = name
      · rw [if_pos hc]
        have hij : i = j := huniq i (hrange i (List.mem_cons_self _ _)) hc
        rw [hij]
      · rw [if_neg hc]
        rcases List.mem_cons.mp hj with he | hmemL
        · exact absurd (he ▸ hjname) hc
        · refine ih (fun x hx => hrange x (List.mem_cons_of_mem _ hx)) hmemL f ?_
          have : L1.length + 1 ≤ f + 1 := by simpa using hfuel
          omega

theorem linearSymSearch_unique (name : String) :
    ∀ (syms : List (Elf_Sym × String)) (j : Nat),
      j < syms.length → (syms.getD j default).2 = name →
      (∀ k, k < syms.length → (syms.getD k default).2 = name → k = j) →
      linearSymSearch syms name = some (syms.getD j default).1 := by
  intro syms
  induction syms with
  | nil => intro j hj _ _; exact absurd hj (Nat.not_lt_zero j)
  | cons a t ih =>
    intro j hj hname huniq
    by_cases ha : a.2 = name
    · have hj0 : 0 = j := huniq 0 (by simp) (by simpa using ha)
      subst hj0
      unfold linearSymSearch
      rw [List.find?_cons_of_pos _ (by simpa using ha)]
      simp
    · have hj0 : j ≠ 0 := by
        intro h0
        subst h0
        exact ha (by simpa using hname)
      obtain ⟨j', rfl⟩ : ∃ j', j = j' + 1 := ⟨j - 1, by omega⟩
      have huniq' : ∀ k, k < t.length → (t.getD k default).2 = name → k = j' := by
        intro k hk hkname
        have hk1 : k + 1 < (a :: t).length := by simpa using Nat.succ_lt_succ hk
        have := huniq (k + 1) hk1 (by simpa [List.getD_cons_succ] using hkname)
        omega
      have hrec := ih j' (by simpa using hj)
        (by simpa [List.getD_cons_succ] using hname) huniq'
      unfold linearSymSearch at hrec ⊢
      rw [List.find?_cons_of_neg _ (by simpa using ha)]
      simpa [List.getD_cons_succ] using hrec

/-- C3 (corrected), counterexample.  The claim quantifies over every image
with a SysV hash section.  With a hash section whose single bucket is
empty (buckets[0] = STN_UNDEF) the hash walk returns nothing, while the
linear scan of .dynsym finds the name "a": the two lookups disagree. -/
theorem claimC3_counterexample :
    nbucket hashCeg = 1 ∧
    (symF, "a") ∈ symsCeg ∧
    linearSymSearch symsCeg "a" = some symF ∧
    hashFindSymbol hashCeg symsCeg "a" 5 = none := by
  refine ⟨rfl, by decide, by decide, by decide⟩

/-- C3 (corrected), amended claim.  When the hash section is well formed
for the queried name — the bucket selected by elf_hash(name) % nbucket
heads a finite chain L of in-range symbol indices, the name lives at
exactly one index j of .dynsym, j is on L, and the walk is given at least
L.length steps (the C loop is unbounded; fuel models its iterations) —
hash-accelerated lookup and linear scan agree: both return entry j. -/
theorem claimC3_amended (h : ElfHashData) (syms : List (Elf_Sym × String)) (name : String)
    (fuel j : Nat) (L : List Nat)
    (hch : HashChain h (buckets h (elf_hash name % nbucket h)) L)
    (hrange : ∀ i ∈ L, i < syms.length)
    (hj : j ∈ L) (hfuel : L.length ≤ fuel)
    (hjname : (syms.getD j default).2 = name)
    (huniq : ∀ k, k < syms.length → (syms.getD k default).2 = name → k = j) :
    hashFindSymbol h syms name fuel = some (syms.getD j default) ∧
    linearSymSearch syms name = some (syms.getD j default).1 := by
  constructor
  · exact hashFindAux_chain h syms name j hjname huniq hch hrange hj fuel hfuel
  · exact linearSymSearch_unique name syms j (hrange j hj) hjname huniq

/-- C3 witness: a one-bucket hash with chain [1] for the name "abc". -/
theorem claimC3_witness :
    hashFindSymbol hashWit symsWit "abc" 1 = some (symsWit.getD 1 default) ∧
    linearSymSearch symsWit "abc" = some (symsWit.getD 1 default).1 := by
  have hb : buckets hashWit (elf_hash "abc" % nbucket hashWit) = 1 := by decide
  have hc : chains hashWit 1 = 0 := by decide
  refine claimC3_amended hashWit symsWit "abc" 1 1 [1] ?_ ?_ ?_ ?_ ?_ ?_
  · rw [hb]
    exact HashChain.cons (by decide) (by rw [hc]; exact HashChain.nil)
  · intro i hi
    rcases List.mem_singleton.mp hi with rfl
    decide
  · exact List.mem_singleton.mpr rfl
  · decide
  · decide
  · decide

/-! C6: the vtable-scan hit rule (part_000:65-67, 213-231). -/

theorem lbAux_spec (l : List ListedSymbol) (p : Nat)
    (hmono : ∀ j, j < l.length → ∀ i, i ≤ j →
      symEnd (l.getD i default) ≤ symEnd (l.getD j default)) :
    ∀ (fuel len first : Nat), len ≤ fuel → first + len ≤ l.length →
      (∀ k, k < first → symEnd (l.getD k default) < p) →
      (∀ k, first + len ≤ k → k < l.length → p ≤ symEnd (l.getD k default)) →
      first ≤ lbAux l p fuel first len ∧
      lbAux l p fuel first len ≤ first + len ∧
      (∀ k, k < lbAux l p fuel first len → symEnd (l.getD k default) < p) ∧
      (lbAux l p fuel first len < l.length →
        p ≤ symEnd (l.getD (lbAux l p fuel first len) default)) := by
  intro fuel
  induction fuel with
  | zero =>
    intro len first hlen hrange hleft hright
    have h0 : len = 0 := Nat.le_zero.mp hlen
    subst h0
    simp only [lbAux]
    exact ⟨Nat.le_refl _, by omega, hleft, fun hr => hright first (by omega) hr⟩
  | succ fuel ih =>
    intro len first hlen hrange hleft hright
    by_cases h0 : len = 0
    · simp only [lbAux]
      rw [if_pos h0]
      exact ⟨Nat.le_refl _, by omega, hleft, fun hr => hright first (by omega) hr⟩
    · simp only [lbAux]
      rw [if_neg h0]
      by_cases hmid : symEnd (l.getD (first + len / 2) default) < p
      · rw [if_pos hmid]
        have hleft' : ∀ k, k < first + len / 2 + 1 → symEnd (l.getD k default) < p := by
          intro k hk
          by_cases hkf : k < first
          · exact hleft k hkf
          · have hj : first + len / 2 < l.length := by omega
            have hm := hmono (first + len / 2) hj k (by omega)
            omega
        have hright' : ∀ k, first + len / 2 + 1 + (len - len / 2 - 1) ≤ k →
            k < l.length → p ≤ symEnd (l.getD k default) := by
          intro k hk1 hk2
          exact hright k (by omega) hk2
        obtain ⟨a1, a2, a3, a4⟩ :=
          ih (len - len / 2 - 1) (first + len / 2 + 1) (by omega) (by omega) hleft' hright'
        exact ⟨by omega, by omega, a3, a4⟩
      · rw [if_neg hmid]
        have hright' : ∀ k, first + len / 2 ≤ k → k < l.length →
            p ≤ symEnd (l.getD k default) := by
          intro k hk1 hk2
          have hm := hmono k hk2 (first + len / 2) (by omega)
          omega
        obtain ⟨a1, a2, a3, a4⟩ :=
          ih (len / 2) first (by omega) (by omega) hleft hright'
        exact ⟨a1, by omega, a3, a4⟩

theorem lowerBound_spec (l : List ListedSymbol) (p : Nat)
    (hmono : ∀ j, j < l.length → ∀ i, i ≤ j →
      symEnd (l.getD i default) ≤ symEnd (l.getD j default)) :
    lowerBound l p ≤ l.length ∧
    (∀ k, k < lowerBound l p → symEnd (l.getD k default) < p) ∧
    (lowerBound l p < l.length → p ≤ symEnd (l.getD (lowerBound l p) default)) := by
  unfold lowerBound
  have h := lbAux_spec l p hmono l.length l.length 0 (Nat.le_refl _) (by omega)
    (fun k hk => absurd hk (Nat.not_lt_zero k))
    (fun k hk1 hk2 => absurd hk2 (by omega))
  exact ⟨by omega, h.2.2.1, h.2.2.2⟩

theorem getD_set_self {α : Type} [Inhabited α] :
    ∀ (l : List α) (i : Nat) (a : α), i < l.length →
      (l.set i a).getD i default = a := by
  intro l
  induction l with
  | nil => intro i a h; exact absurd h (Nat.not_lt_zero i)
  | cons x t ih =>
    intro i a h
    cases i with
    | zero => rfl
    | succ n =>
      simp only [List.set, List.getD_cons_succ]
      exact ih n a (by simpa using h)

theorem getD_set_other {α : Type} [Inhabited α] :
    ∀ (l : List α) (i j : Nat) (a : α), j ≠ i →
      (l.set i a).getD j default = l.getD j default := by
  intro l
  induction l with
  | nil => intro i j a _; rfl
  | cons x t ih =>
    intro i j a h
    cases i with
    | zero =>
      cases j with
      | zero => exact absurd rfl h
      | succ m => simp [List.set, List.getD_cons_succ]
    | succ n =>
      cases j with
      | zero => simp [List.set, List.getD_cons_zero]
      | succ m =>
        simp only [List.set, List.getD_cons_succ]
        exact ih n m a (fun he => h (by rw [he]))

/-- C6 (corrected), counterexample.  Two sorted, adjacent vtable ranges
[10, 20) and [20, 30), word w = 20.  The claim's rule picks the greatest
entry with address ≤ 20 — entry 1, which contains 20 since 20 + 10 > 20 —
so the claim counts a hit on entry 1.  The code's lower_bound, keyed on
memaddr + st_size, lands on entry 0 (end 20 ≥ 20), whose containment test
20 + 0*... fails (20 is not < 20): no hit is counted at all and no counter
changes. -/
theorem claimC6_counterexample :
    sortedByAddr listC6 = true ∧
    specScanHit listC6 20 = some 1 ∧
    memaddr (listC6.getD 1 default) ≤ 20 ∧
    20 < memaddr (listC6.getD 1 default) + (listC6.getD 1 default).st_size ∧
    scanHit listC6 20 = none ∧
    scanWord listC6 20 = listC6 := by
  refine ⟨by decide, by decide, by decide, by decide, by decide, by decide⟩

/-- C6 (corrected), amended claim.  Provided the end addresses
memaddr + st_size are non-decreasing along the address-sorted list, the
scanned word w selects the FIRST entry whose memaddr + st_size ≥ w (the
lower_bound with comparator memaddr + st_size < w), and w is a hit exactly
when that entry also satisfies memaddr ≤ w < memaddr + st_size; a hit
increments that entry's counter and no other, and a miss leaves every
counter unchanged. -/
theorem claimC6_amended (l : List ListedSymbol) (w : Nat)
    (hmono : ∀ j, j < l.length → ∀ i, i ≤ j →
      symEnd (l.getD i default) ≤ symEnd (l.getD j default)) :
    (∀ k, k < lowerBound l w → symEnd (l.getD k default) < w) ∧
    (lowerBound l w < l.length → w ≤ symEnd (l.getD (lowerBound l w) default)) ∧
    (∀ i, scanHit l w = some i →
      i = lowerBound l w ∧ i < l.length ∧
      memaddr (l.getD i default) ≤ w ∧ w < symEnd (l.getD i default) ∧
      ∀ j, j < l.length →
        ((scanWord l w).getD j default).count =
          (l.getD j default).count + (if j = i then 1 else 0)) ∧
    (scanHit l w = none → scanWord l w = l) := by
  obtain ⟨hle, hlt, hge⟩ := lowerBound_spec l w hmono
  refine ⟨hlt, hge, ?_, ?_⟩
  · intro i hi
    have hcond : lowerBound l w < l.length ∧ memaddr (l.getD (lowerBound l w) default) ≤ w ∧
        w < symEnd (l.getD (lowerBound l w) default) := by
      by_contra hc
      unfold scanHit at hi
      rw [if_neg hc] at hi
      exact Option.noConfusion hi
    have hhit : scanHit l w = some (lowerBound l w) := by
      unfold scanHit
      rw [if_pos hcond]
    have hi' : i = lowerBound l w := by
      rw [hhit] at hi
      injection hi with h'
      exact h'.symm
    subst hi'
    obtain ⟨hc1, hc2, hc3⟩ := hcond
    refine ⟨rfl, hc1, hc2, hc3, ?_⟩
    intro j hj
    unfold scanWord
    rw [hhit]
    by_cases hji : j = lowerBound l w
    · subst hji
      rw [getD_set_self l (lowerBound l w) _ hc1, if_pos rfl]
      rfl
    · rw [getD_set_other l (lowerBound l w) j _ hji, if_neg hji]
      rfl
  · intro hnone
    unfold scanWord
    rw [hnone]

/-- C6 witness: the adjacent ranges of listC6 at w = 25, a hit on entry 1. -/
theorem claimC6_witness :
    (∀ k, k < lowerBound listC6 25 → symEnd (listC6.getD k default) < 25) ∧
    (lowerBound listC6 25 < listC6.length →
      25 ≤ symEnd (listC6.getD (lowerBound listC6 25) default)) ∧
    (∀ i, scanHit listC6 25 = some i →
      i = lowerBound listC6 25 ∧ i < listC6.length ∧
      memaddr (listC6.getD i default) ≤ 25 ∧ 25 < symEnd (listC6.getD i default) ∧
      ∀ j, j < listC6.length →
        ((scanWord listC6 25).getD j default).count =
          (listC6.getD j default).count + (if j = i then 1 else 0)) ∧
    (scanHit listC6 25 = none → scanWord listC6 25 = listC6) :=
  claimC6_amended listC6 25 (by decide)

/-! C10: the glob matcher's '*' (part_000:17-44). -/

theorem starLoop_true_length (f : List Char → Option Bool) (C : Nat)
    (hf : ∀ m, f m = some true → C ≤ m.length) :
    ∀ n, starLoop f n = some true → C + 1 ≤ n.length := by
  intro n
  induction n with
  | nil => intro h; exact Option.noConfusion h
  | cons x nr ih =>
    intro h
    simp only [starLoop] at h
    cases hf' : f nr with
    | none =>
      rw [hf'] at h
      exact Option.noConfusion (h : (none : Option Bool) = some true)
    | some b =>
      cases b with
      | true =>
        have := hf nr hf'
        simp only [List.length_cons]
        omega
      | false =>
        rw [hf'] at h
        have h2 : (if nr.isEmpty then (some false : Option Bool) else starLoop f nr) =
            some true := h
        by_cases he : nr.isEmpty
        · rw [if_pos he] at h2
          exact Option.noConfusion h2 (fun hb => Bool.noConfusion hb)
        · rw [if_neg he] at h2
          have := ih h2
          simp only [List.length_cons]
          omega

theorem gmR_true_length : ∀ (p n : List Char), gmR p n = some true → p.length ≤ n.length := by
  intro p
  induction p with
  | nil =>
    intro n h
    cases n with
    | nil => simp
    | cons x t =>
      exact Option.noConfusion (h : (some false : Option Bool) = some true)
        (fun hb => Bool.noConfusion hb)
  | cons c pr ih =>
    intro n h
    simp only [gmR] at h
    by_cases hc : c = '*'
    · rw [if_pos hc] at h
      have := starLoop_true_length (gmR pr) pr.length ih n h
      simp only [List.length_cons]
      omega
    · rw [if_neg hc] at h
      cases n with
      | nil =>
        exact Option.noConfusion (h : (some false : Option Bool) = some true)
          (fun hb => Bool.noConfusion hb)
      | cons m nr =>
        have h2 : (if m = c then gmR pr nr else some false) = some true := h
        by_cases hm : m = c
        · rw [if_pos hm] at h2
          have := ih nr h2
          simp only [List.length_cons]
          omega
        · rw [if_neg hm] at h2
          exact Option.noConfusion h2 (fun hb => Bool.noConfusion hb)

theorem starLoop_gmR_nil : ∀ (x : Char) (rest : List Char),
    starLoop (gmR []) (x :: rest) = some true := by
  intro x rest
  induction rest generalizing x with
  | nil => rfl
  | cons y r ih =>
    exact ih y

/-- C10 (confirmed).  The wildcard of globmatchR consumes at least one
character: matching pattern s ++ "*" against name s can never report a
match (when the name is exhausted at the '*', the code advances name past
the NUL terminator, an out-of-bounds read modelled as none; and a counting
argument shows no successful path exists: a match needs strictly more name
characters than s has).  In particular "_ZTV*" does not match the name
"_ZTV" — the call hits the past-the-terminator read — while every strict
extension of "_ZTV" matches. -/
theorem claimC10_theorem :
    (∀ s : List Char, (gmR (s ++ ['*']) s == some true) = false) ∧
    globmatch "_ZTV*" "_ZTV" = none ∧
    ∀ (c : Char) (rest : List Char),
      gmR "_ZTV*".data ("_ZTV".data ++ c :: rest) = some true := by
  refine ⟨?_, rfl, ?_⟩
  · intro s
    cases hg : gmR (s ++ ['*']) s with
    | none => rfl
    | some b =>
      cases b with
      | false => rfl
      | true =>
        have hlen := gmR_true_length _ _ hg
        simp only [List.length_append, List.length_cons, List.length_nil] at hlen
        omega
  · intro c rest
    show starLoop (gmR []) (c :: rest) = some true
    exact starLoop_gmR_nil c rest

/-- C7 witness: a page with two matching words and one non-matching word. -/
theorem claimC7_witness :
    refScanPage 0x1000 0x2000 0x4000 [0x1000, 5, 0x1008] =
      List.replicate ([0x1000, 5, 0x1008].countP (refMatch 0x1000 0x2000)) 0x4000 :=
  claimC7_amended 0x1000 0x2000 0x4000 [0x1000, 5, 0x1008]
